import Mathlib

/-!
# Verification of the WebSocket frame-streaming server

A shallow embedding of `easyvolcap/runners/websocket_server.py`
(`WebSocketServer`): the image post-correction / quantization / flip
pipeline of `render`, the lock/stream discipline of `render_loop` and
`send_loop`, the FPS reporting accounting, the no-op `recv_loop`, and the
single-slot latest-frame buffer shared between the render loop (writer)
and the per-connection send loops (readers).

Pixel channel values are modelled as exact rationals (the Python code uses
floating point; the properties at stake are about the algebraic shape of
the pipeline, which the rational model captures exactly, including the
toward-zero truncation of the `uint8` cast).
-/

/-- A device-resident pixel as produced by the renderer: four normalized
channels (RGBA), modelled as rationals. -/
structure RGBA where
  r : ℚ
  g : ℚ
  b : ℚ
  a : ℚ
deriving DecidableEq

/-- A quantized 8-bit pixel as stored in the frame slot after
`.type(torch.uint8)`: four natural-number channels. -/
structure BytePix where
  r : ℕ
  g : ℕ
  b : ℕ
  a : ℕ
deriving DecidableEq

/-- A renderer output image: a list of rows (first index is the row index,
as in an `H, W, 4` tensor), each row a list of RGBA pixels. -/
abbrev Image : Type := List (List RGBA)

/-- A quantized image, as stored in `self.image` (the frame slot). -/
abbrev QImage : Type := List (List BytePix)

/-- `x.clip(0, 1)` from line 165: clamp a channel into `[0, 1]`. -/
def clip01 (x : ℚ) : ℚ := if x ≤ 0 then 0 else if 1 ≤ x then 1 else x

/-- `(x.clip(0, 1) * 255).type(torch.uint8)` applied to one channel:
clamp, scale by 255, truncate toward zero (the value is nonnegative after
the clamp, so truncation is the floor). -/
def quantVal (x : ℚ) : ℕ := (⌊clip01 x * 255⌋).toNat

/-- Channel-wise quantization of one pixel (line 165, before `flip(0)`). -/
def quantPix (p : RGBA) : BytePix :=
  ⟨quantVal p.r, quantVal p.g, quantVal p.b, quantVal p.a⟩

/-- The manual linear correction of line 164:
`torch.cat([image[..., :3] * exposure + offset, image[..., -1:]], dim=-1)` —
the first three channels get `* e + o`, the alpha channel is carried over
unchanged. -/
def correctPix (e o : ℚ) (p : RGBA) : RGBA :=
  ⟨p.r * e + o, p.g * e + o, p.b * e + o, p.a⟩

/-- Lines 163–165 of `render`: apply the linear correction only when
`self.exposure != 1.0 or self.offset != 0.0`, then clip to `[0, 1]`, scale
to 8 bits, cast to `uint8`, and `flip(0)` (reverse the row order). -/
def renderTransform (e o : ℚ) (img : Image) : QImage :=
  let corrected : Image :=
    if e ≠ 1 ∨ o ≠ 0 then img.map (fun row => row.map (correctPix e o)) else img
  (corrected.map (fun row => row.map quantPix)).reverse

/-- The pipeline the spec describes for step 3 of the render loop, with the
correction applied unconditionally:
`outRGB = clip(inRGB * exposure + offset, 0, 1)`, quantize, flip. Used to
compare the code's skip branch against the always-correct form. -/
def renderTransformForced (e o : ℚ) (img : Image) : QImage :=
  ((img.map (fun row => row.map (correctPix e o))).map
    (fun row => row.map quantPix)).reverse

/-- The alpha plane of a quantized image. -/
def alphaPlane (q : QImage) : List (List ℕ) := q.map (fun row => row.map (·.a))

theorem correctPix_one_zero (p : RGBA) : correctPix 1 0 p = p := by
  simp [correctPix]

/-- C3: with `exposure = 1.5`, `offset = 0.1`, the channel value `0.4` is
corrected to `clip(0.4 * 1.5 + 0.1, 0, 1) = 0.7` and quantized to `178`;
and in `renderTransform` the correction and the quantization are applied
pixel-wise first and the vertical flip (row reversal) last, as the concrete
two-row image shows: the row holding the `0.4` pixel comes out last,
already quantized to `178`. -/
theorem render_correction_formula_c3 :
    clip01 ((0.4 : ℚ) * 1.5 + 0.1) = 0.7 ∧
    quantVal ((0.4 : ℚ) * 1.5 + 0.1) = 178 ∧
    (∀ img : Image, renderTransform 1.5 0.1 img
      = (img.map (fun row => row.map (fun p => quantPix (correctPix 1.5 0.1 p)))).reverse) ∧
    renderTransform 1.5 0.1 [[⟨0.4, 0.4, 0.4, 1⟩], [⟨0, 0, 0, 1⟩]]
      = [[⟨25, 25, 25, 255⟩], [⟨178, 178, 178, 255⟩]] := by
  have hc : ((1.5 : ℚ) ≠ 1 ∨ (0.1 : ℚ) ≠ 0) := by norm_num
  have h1 : clip01 ((0.4 : ℚ) * 1.5 + 0.1) = 0.7 := by norm_num [clip01]
  refine ⟨h1, ?_, ?_, ?_⟩
  · rw [quantVal, h1]
    norm_num
    decide
  · intro img
    simp [renderTransform, if_pos hc, List.map_map, Function.comp_def]
  · simp only [renderTransform, if_pos hc, List.map_cons, List.map_nil,
      List.reverse_cons, List.reverse_nil, List.nil_append, List.cons_append]
    norm_num [correctPix, quantPix, quantVal, clip01]
    decide

/-- C4: with `exposure = 1.0`, `offset = 0.0` the code takes the branch
that skips the linear correction, and the result is exactly the clipped,
quantized, flipped input — the same output the always-applied correction
`clip(in * 1.0 + 0.0, 0, 1)` would produce. -/
theorem render_noop_correction_c4 (img : Image) :
    renderTransform 1 0 img = (img.map (fun row => row.map quantPix)).reverse ∧
    renderTransform 1 0 img = renderTransformForced 1 0 img := by
  have hskip : renderTransform 1 0 img
      = (img.map (fun row => row.map quantPix)).reverse := by
    simp [renderTransform]
  refine ⟨hskip, ?_⟩
  rw [hskip]
  simp [renderTransformForced, correctPix_one_zero, List.map_map,
    Function.comp_def]

theorem alpha_correctPix (e o : ℚ) (p : RGBA) : (correctPix e o p).a = p.a := rfl

/-- The alpha plane of the full transform is the per-pixel quantization of
the input alpha, for every exposure and offset (both branches of the
correction carry the alpha channel over unchanged). -/
theorem alphaPlane_renderTransform (e o : ℚ) (img : Image) :
    alphaPlane (renderTransform e o img)
      = (img.map (fun row => row.map (fun p => quantVal p.a))).reverse := by
  unfold renderTransform
  by_cases hc : (e ≠ 1 ∨ o ≠ 0) <;>
    simp [hc, alphaPlane, List.map_reverse, List.map_map, Function.comp_def,
      quantPix, correctPix]

theorem clip01_of_unit (x : ℚ) (h0 : 0 ≤ x) (h1 : x ≤ 1) : clip01 x = x := by
  unfold clip01
  split_ifs with ha hb
  · linarith
  · linarith
  · rfl

/-- C5: for an input image whose alpha channel lies in `[0, 1]`, the
pipeline of `render` changes only the RGB channels: the output alpha plane
is the quantized input alpha plane (up to the final row flip), independent
of exposure and offset. -/
theorem render_alpha_passthrough_c5 (e o : ℚ) (img : Image)
    (h : ∀ row ∈ img, ∀ p ∈ row, 0 ≤ p.a ∧ p.a ≤ 1) :
    alphaPlane (renderTransform e o img)
      = (img.map (fun row => row.map (fun p => (⌊p.a * 255⌋).toNat))).reverse := by
  rw [alphaPlane_renderTransform]
  congr 1
  refine List.map_congr_left (fun row hrow => ?_)
  refine List.map_congr_left (fun p hp => ?_)
  have hpa := h row hrow p hp
  rw [quantVal, clip01_of_unit p.a hpa.1 hpa.2]

theorem render_alpha_passthrough_c5_witness :
    alphaPlane (renderTransform 2 3 [[⟨0.5, 0.5, 0.5, 0.5⟩]])
      = (([[⟨0.5, 0.5, 0.5, 0.5⟩]] : Image).map
          (fun row => row.map (fun p => (⌊p.a * 255⌋).toNat))).reverse := by
  refine render_alpha_passthrough_c5 2 3 [[⟨0.5, 0.5, 0.5, 0.5⟩]] ?_
  intro row hrow p hp
  simp only [List.mem_singleton] at hrow
  subst hrow
  simp only [List.mem_singleton] at hp
  subst hp
  norm_num

/-- The shape the renderer boundary guarantees for its output (an
`H, W, 4` tensor — the 4 channels are built into `RGBA`). -/
def imgShape (H W : ℕ) (img : Image) : Prop :=
  img.length = H ∧ ∀ row ∈ img, row.length = W

/-- All four channels of a quantized pixel fit in 8 unsigned bits. -/
def byteOK (p : BytePix) : Prop :=
  p.r ≤ 255 ∧ p.g ≤ 255 ∧ p.b ≤ 255 ∧ p.a ≤ 255

/-- The frame-slot invariant: an `H × W × 4` image with 8-bit channels. -/
def slotWF (H W : ℕ) (q : QImage) : Prop :=
  q.length = H ∧ ∀ row ∈ q, row.length = W ∧ ∀ p ∈ row, byteOK p

/-- Line 62: `torch.randint(0, 255, (self.H, self.W, 4), dtype=torch.uint8)`
— the placeholder installed at construction; `r` is the random source,
whose values lie in `0..254` (the upper bound of `randint` is exclusive). -/
def initImage (H W : ℕ) (r : ℕ → ℕ → Fin 4 → Fin 255) : QImage :=
  (List.range H).map (fun i => (List.range W).map (fun j =>
    ⟨(r i j 0 : ℕ), (r i j 1 : ℕ), (r i j 2 : ℕ), (r i j 3 : ℕ)⟩))

/-- Lines 114–118: each render-loop iteration replaces the slot contents
with the transformed render output; the slot after a sequence of
publishes, each with its own exposure, offset and renderer output. -/
def runPublishes (slot : QImage) : List (ℚ × ℚ × Image) → QImage
  | [] => slot
  | (e, o, img) :: rest => runPublishes (renderTransform e o img) rest

theorem clip01_nonneg (x : ℚ) : 0 ≤ clip01 x := by
  unfold clip01
  split_ifs with ha hb
  · exact le_refl 0
  · exact zero_le_one
  · linarith

theorem clip01_le_one (x : ℚ) : clip01 x ≤ 1 := by
  unfold clip01
  split_ifs with ha hb
  · exact zero_le_one
  · exact le_refl 1
  · linarith

theorem quantVal_le_255 (x : ℚ) : quantVal x ≤ 255 := by
  unfold quantVal
  have h : clip01 x * 255 ≤ 255 := by
    have := clip01_le_one x
    nlinarith
  have hf : ⌊clip01 x * 255⌋ ≤ (255 : ℤ) := by
    calc ⌊clip01 x * 255⌋ ≤ ⌊(255 : ℚ)⌋ := Int.floor_le_floor h
    _ = 255 := by norm_num
  calc (⌊clip01 x * 255⌋).toNat ≤ (255 : ℤ).toNat := Int.toNat_le_toNat hf
  _ = 255 := rfl

theorem byteOK_quantPix (p : RGBA) : byteOK (quantPix p) :=
  ⟨quantVal_le_255 p.r, quantVal_le_255 p.g, quantVal_le_255 p.b,
    quantVal_le_255 p.a⟩

/-- The transform of `render` always produces a well-formed slot image
from a well-shaped renderer output. -/
theorem slotWF_renderTransform (H W : ℕ) (e o : ℚ) (img : Image)
    (h : imgShape H W img) : slotWF H W (renderTransform e o img) := by
  obtain ⟨hlen, hrows⟩ := h
  have hcor : (if e ≠ 1 ∨ o ≠ 0 then
      img.map (fun row => row.map (correctPix e o)) else img).length = H ∧
      ∀ row ∈ (if e ≠ 1 ∨ o ≠ 0 then
        img.map (fun row => row.map (correctPix e o)) else img),
        row.length = W := by
    split_ifs
    · refine ⟨by simpa using hlen, ?_⟩
      intro row hrow
      obtain ⟨row0, hrow0, rfl⟩ := List.mem_map.mp hrow
      simpa using hrows row0 hrow0
    · exact ⟨hlen, hrows⟩
  refine ⟨?_, ?_⟩
  · simpa [renderTransform] using hcor.1
  · intro row hrow
    simp only [renderTransform, List.mem_reverse, List.mem_map] at hrow
    obtain ⟨row0, hrow0, rfl⟩ := hrow
    refine ⟨by simpa using hcor.2 row0 hrow0, ?_⟩
    intro p hp
    obtain ⟨p0, _, rfl⟩ := List.mem_map.mp hp
    exact byteOK_quantPix p0

theorem slotWF_initImage (H W : ℕ) (r : ℕ → ℕ → Fin 4 → Fin 255) :
    slotWF H W (initImage H W r) := by
  refine ⟨by simp [initImage], ?_⟩
  intro row hrow
  simp only [initImage, List.mem_map, List.mem_range] at hrow
  obtain ⟨i, _, rfl⟩ := hrow
  refine ⟨by simp, ?_⟩
  intro p hp
  simp only [List.mem_map, List.mem_range] at hp
  obtain ⟨j, _, rfl⟩ := hp
  refine ⟨?_, ?_, ?_, ?_⟩ <;> exact le_of_lt (lt_of_lt_of_le (Fin.is_lt _) (by norm_num))

theorem slotWF_runPublishes (H W : ℕ) (pubs : List (ℚ × ℚ × Image)) :
    ∀ slot : QImage, slotWF H W slot →
      (∀ x ∈ pubs, imgShape H W x.2.2) →
      slotWF H W (runPublishes slot pubs) := by
  induction pubs with
  | nil => intro slot hs _; exact hs
  | cons head rest ih =>
    intro slot _ hshape
    obtain ⟨e, o, img⟩ := head
    exact ih (renderTransform e o img)
      (slotWF_renderTransform H W e o img (hshape ⟨e, o, img⟩ (by simp)))
      (fun x hx => hshape x (List.mem_cons_of_mem _ hx))

/-- C10: at every reachable state — after the random placeholder of
construction and any sequence of publishes whose renderer outputs have the
configured `H × W` shape — the frame slot holds an `H × W × 4` image with
every channel in `0..255`. -/
theorem frame_slot_invariant_c10 (H W : ℕ) (r : ℕ → ℕ → Fin 4 → Fin 255)
    (pubs : List (ℚ × ℚ × Image)) (h : ∀ x ∈ pubs, imgShape H W x.2.2) :
    slotWF H W (runPublishes (initImage H W r) pubs) :=
  slotWF_runPublishes H W pubs (initImage H W r) (slotWF_initImage H W r) h

theorem frame_slot_invariant_c10_witness :
    slotWF 1 1 (runPublishes (initImage 1 1 (fun _ _ _ => 0))
      [(1, 0, [[⟨2, 0, 0, 1⟩]])]) := by
  refine frame_slot_invariant_c10 1 1 (fun _ _ _ => 0) [(1, 0, [[⟨2, 0, 0, 1⟩]])] ?_
  intro x hx
  simp only [List.mem_singleton] at hx
  subst hx
  exact ⟨rfl, by simp⟩

/-- The synchronization-relevant actions a loop iteration can perform:
lock operations on `camera_lock` and `image_lock`, the GPU-side steps, the
completion wait (`stream.synchronize()`), the reference install and read,
compression, transmission, and the inbound-side actions that `recv_loop`
could, but does not, perform. -/
inductive LoopAct where
  | camLockAcquire
  | camLockRelease
  | camSnapshot
  | renderCompute
  | streamWaitCompute
  | imgLockAcquire
  | imgLockRelease
  | installRef
  | waitCompletion
  | readRef
  | encode
  | send
  | sleep
  | recvMsg
  | decodeMsg
  | applyCameraUpdate
deriving DecidableEq

/-- One iteration of `render_loop` (lines 112–118) as its sequence of
actions: acquire `camera_lock`, `camera.to_batch()`, release, `render`
(issue the compute), `stream.wait_stream(current_stream)`, acquire
`image_lock`, `self.image = image.to('cpu', non_blocking=True)` (issue the
async copy and install the new reference in one step), release. -/
def renderIterTrace : List LoopAct :=
  [LoopAct.camLockAcquire, LoopAct.camSnapshot, LoopAct.camLockRelease,
    LoopAct.renderCompute, LoopAct.streamWaitCompute, LoopAct.imgLockAcquire,
    LoopAct.installRef, LoopAct.imgLockRelease]

/-- One iteration of `send_loop` (lines 134–138) as its sequence of
actions: acquire `image_lock`, `self.stream.synchronize()` (the completion
wait), `self.image.numpy()` (read the reference and copy out), release,
JPEG-encode, transmit. -/
def sendIterTrace : List LoopAct :=
  [LoopAct.imgLockAcquire, LoopAct.waitCompletion, LoopAct.readRef,
    LoopAct.imgLockRelease, LoopAct.encode, LoopAct.send]

/-- One iteration of `recv_loop` (lines 150–151): only `time.sleep(1)`. -/
def recvIterTrace : List LoopAct := [LoopAct.sleep]

/-- The image lock is held while the action at index `i` executes: more
acquisitions up to and including `i` than releases strictly before `i`. -/
abbrev imgLockHeldAt (tr : List LoopAct) (i : ℕ) : Prop :=
  (tr.take i).count LoopAct.imgLockRelease
    < (tr.take (i + 1)).count LoopAct.imgLockAcquire

/-- The reader discipline claimed by C1: every completion wait in the
trace executes with the image lock not held. -/
abbrev waitOutsideLock (tr : List LoopAct) : Prop :=
  ∀ i : Fin tr.length, tr.get i = LoopAct.waitCompletion → ¬ imgLockHeldAt tr i

/-- C1 is false on the code: in `send_loop`, `stream.synchronize()` runs
inside the `with self.image_lock:` block, so the completion wait happens
with the frame-slot lock held. -/
theorem reader_wait_under_lock_c1_cex : ¬ waitOutsideLock sendIterTrace := by
  decide

/-- C1 amended: in each `send_loop` iteration the reader holds the
frame-slot lock across the completion wait and the host-side copy-out, and
releases it only afterwards, before compression and transmission. -/
theorem reader_lock_scope_c1 :
    sendIterTrace.get? 1 = some LoopAct.waitCompletion ∧
    imgLockHeldAt sendIterTrace 1 ∧
    sendIterTrace.get? 2 = some LoopAct.readRef ∧
    imgLockHeldAt sendIterTrace 2 ∧
    sendIterTrace.get? 4 = some LoopAct.encode ∧
    ¬ imgLockHeldAt sendIterTrace 4 ∧
    sendIterTrace.get? 5 = some LoopAct.send ∧
    ¬ imgLockHeldAt sendIterTrace 5 := by
  decide

/-- C2: the render loop's publish step never waits on the completion
token — no `waitCompletion` occurs anywhere in a render-loop iteration
(only the reader's iteration contains one), and under the image lock the
writer performs nothing but the reference install. -/
theorem publish_never_waits_c2 :
    LoopAct.waitCompletion ∉ renderIterTrace ∧
    LoopAct.waitCompletion ∈ sendIterTrace ∧
    ¬ imgLockHeldAt renderIterTrace 0 ∧ ¬ imgLockHeldAt renderIterTrace 1 ∧
    ¬ imgLockHeldAt renderIterTrace 2 ∧ ¬ imgLockHeldAt renderIterTrace 3 ∧
    ¬ imgLockHeldAt renderIterTrace 4 ∧
    imgLockHeldAt renderIterTrace 5 ∧ imgLockHeldAt renderIterTrace 6 ∧
    imgLockHeldAt renderIterTrace 7 ∧
    renderIterTrace.get? 5 = some LoopAct.imgLockAcquire ∧
    renderIterTrace.get? 6 = some LoopAct.installRef ∧
    renderIterTrace.get? 7 = some LoopAct.imgLockRelease := by
  decide

/-- One iteration of `recv_loop` over the server state and the pending
inbound messages: the body is `time.sleep(1)`, so it consumes no message
and changes nothing; `S` is the server state (camera, slot, exposure,
offset, ...) and `M` the message type, both arbitrary since the body never
touches them. -/
def recvIter {S M : Type} (st : S) (pending : List M) : S × List M :=
  (st, pending)

/-- `n` iterations of the `recv_loop` body. -/
def recvLoop {S M : Type} : ℕ → S → List M → S × List M
  | 0, st, pending => (st, pending)
  | n + 1, st, pending => recvLoop n (recvIter st pending).1 (recvIter st pending).2

/-- C8: the receive loop is a no-op placeholder — any number of iterations
leaves the server state and the pending inbound messages untouched, and
its action trace contains no receive, decode, or camera-update action. -/
theorem recv_loop_noop_c8 :
    (∀ (S M : Type) (n : ℕ) (st : S) (pending : List M),
      recvLoop n st pending = (st, pending)) ∧
    LoopAct.recvMsg ∉ recvIterTrace ∧
    LoopAct.decodeMsg ∉ recvIterTrace ∧
    LoopAct.applyCameraUpdate ∉ recvIterTrace := by
  refine ⟨?_, by decide, by decide, by decide⟩
  intro S M n
  induction n with
  | zero => intro st pending; rfl
  | succ n ih => intro st pending; exact ih st pending

/-- The per-loop throughput accounting state: `frame_cnt` and `prev_time`
(lines 108–109 and 130–131). Times are modelled as exact rationals. -/
structure FpsState where
  frame_cnt : ℕ
  prev_time : ℚ
deriving DecidableEq

/-- Lines 120–127 of `render_loop`: given the current time, increment the
frame counter; if `pass_time > 2.0` report `frame_cnt / pass_time` and
reset the counter and the window start. -/
def renderFpsStep (s : FpsState) (curr : ℚ) : FpsState × Option ℚ :=
  let pass := curr - s.prev_time
  let cnt := s.frame_cnt + 1
  if pass > 2 then (⟨0, curr⟩, some ((cnt : ℚ) / pass))
  else (⟨cnt, s.prev_time⟩, none)

/-- Lines 140–147 of `send_loop`: textually the same accounting as the
render loop, per connection. -/
def sendFpsStep (s : FpsState) (curr : ℚ) : FpsState × Option ℚ :=
  let pass := curr - s.prev_time
  let cnt := s.frame_cnt + 1
  if pass > 2 then (⟨0, curr⟩, some ((cnt : ℚ) / pass))
  else (⟨cnt, s.prev_time⟩, none)

/-- C6: in both loops a report is emitted in an iteration iff the elapsed
time since the last report exceeds 2.0 seconds; when emitted it equals
`frameCount / elapsedSeconds` over the window (the count includes the
current frame) and the counter and window restart; otherwise only the
counter advances. In particular no report fires with ≤ 2.0 seconds
elapsed. -/
theorem fps_report_c6 (s : FpsState) (curr : ℚ) :
    ((renderFpsStep s curr).2.isSome ↔ curr - s.prev_time > 2) ∧
    ((sendFpsStep s curr).2.isSome ↔ curr - s.prev_time > 2) ∧
    (curr - s.prev_time > 2 →
      renderFpsStep s curr
        = (⟨0, curr⟩, some (((s.frame_cnt + 1 : ℕ) : ℚ) / (curr - s.prev_time))) ∧
      sendFpsStep s curr = renderFpsStep s curr) ∧
    (¬ curr - s.prev_time > 2 →
      renderFpsStep s curr = (⟨s.frame_cnt + 1, s.prev_time⟩, none) ∧
      sendFpsStep s curr = renderFpsStep s curr) := by
  by_cases h : curr - s.prev_time > 2 <;>
    simp [renderFpsStep, sendFpsStep, h]

theorem fps_report_c6_witness :
    renderFpsStep ⟨5, 0⟩ 3
      = (⟨0, 3⟩, some (((5 + 1 : ℕ) : ℚ) / (3 - 0))) ∧
    sendFpsStep ⟨5, 0⟩ 3 = renderFpsStep ⟨5, 0⟩ 3 :=
  (fps_report_c6 ⟨5, 0⟩ 3).2.2.1 (by norm_num)

/-- An event at the frame slot: the writer installs the next generation,
or the client numbered `c` reads the currently installed generation (each
read in `send_loop` takes the current reference under `image_lock`; each
publish in `render_loop` replaces it under the same lock, so every read
observes the latest installed generation). -/
inductive SlotEv where
  | publish : SlotEv
  | read : ℕ → SlotEv
deriving DecidableEq

/-- Run a slot event trace from generation `g`: publishes bump the
generation, reads record `(client, current generation)` in order. -/
def runGen : ℕ → List SlotEv → List (ℕ × ℕ)
  | _, [] => []
  | g, SlotEv.publish :: rest => runGen (g + 1) rest
  | g, SlotEv.read c :: rest => (c, g) :: runGen g rest

/-- The generations client `c` observes across its successive reads. -/
def observedBy (c : ℕ) (evs : List SlotEv) : List ℕ :=
  ((runGen 0 evs).filter (fun x => x.1 == c)).map Prod.snd

theorem le_of_mem_runGen (c : ℕ) :
    ∀ (evs : List SlotEv) (g x : ℕ),
      x ∈ ((runGen g evs).filter (fun y => y.1 == c)).map Prod.snd → g ≤ x := by
  intro evs
  induction evs with
  | nil => intro g x hx; simp [runGen] at hx
  | cons ev rest ih =>
    intro g x hx
    cases ev with
    | publish =>
      exact le_trans (Nat.le_succ g) (ih (g + 1) x (by simpa [runGen] using hx))
    | read c' =>
      by_cases hc : c' = c
      · subst hc
        simp only [runGen, List.filter_cons, beq_self_eq_true, if_pos,
          List.map_cons] at hx
        rcases List.mem_cons.mp hx with h | h
        · omega
        · exact ih g x h
      · have hne : (c' == c) = false := beq_eq_false_iff_ne.mpr hc
        simp only [runGen, List.filter_cons, hne] at hx
        exact ih g x hx

theorem chain_observed (c : ℕ) :
    ∀ (evs : List SlotEv) (g : ℕ),
      List.Chain' (· ≤ ·)
        (((runGen g evs).filter (fun y => y.1 == c)).map Prod.snd) := by
  intro evs
  induction evs with
  | nil => intro g; simp [runGen]
  | cons ev rest ih =>
    intro g
    cases ev with
    | publish => simpa [runGen] using ih (g + 1)
    | read c' =>
      by_cases hc : c' = c
      · subst hc
        simp only [runGen, List.filter_cons, beq_self_eq_true, if_pos,
          List.map_cons]
        refine List.chain'_cons'.mpr ⟨?_, ih g⟩
        intro y hy
        exact le_of_mem_runGen _ rest g y
          (List.mem_of_mem_head? hy)
      · have hne : (c' == c) = false := beq_eq_false_iff_ne.mpr hc
        simp only [runGen, List.filter_cons, hne]
        exact ih g
/-- C7: for any single client, across any interleaving of writer publishes
and reads by arbitrary clients, the sequence of generations that client
observes is non-decreasing — frames may be skipped but never reordered
backward. -/
theorem monotonic_generations_c7 (c : ℕ) (evs : List SlotEv) :
    List.Chain' (· ≤ ·) (observedBy c evs) :=
  chain_observed c evs 0

/-- A GPU-side operation enqueued by one render-loop iteration, tagged
with the stream it is enqueued on: rendering compute, a cross-stream wait
(`stream.wait_stream(other)`), or the device-to-host copy. -/
inductive StreamOp where
  | compute : ℕ → StreamOp
  | waitStream : ℕ → ℕ → StreamOp
  | copy : ℕ → StreamOp
deriving DecidableEq

/-- The stream an operation is enqueued on. -/
def opStream : StreamOp → ℕ
  | StreamOp.compute s => s
  | StreamOp.waitStream s _ => s
  | StreamOp.copy s => s

/-- The stream a `waitStream` operation waits for (none for others). -/
def waitedStream : StreamOp → Option ℕ
  | StreamOp.waitStream _ w => some w
  | _ => none

/-- The GPU operations one `render_loop` iteration enqueues, in issue
order (lines 114–118): the rendering compute on the current stream (0),
then `self.stream.wait_stream(torch.cuda.current_stream())`, then the
async copy, both on the transfer stream `self.stream` (1). -/
def renderIterOps : List StreamOp :=
  [StreamOp.compute 0, StreamOp.waitStream 1 0, StreamOp.copy 1]

/-- CUDA start-order constraints between issued operations: `i` must start
before `j` when `j` was issued later on the same stream (streams are
FIFO), or when `j` is a cross-stream wait issued later that waits on the
stream `i` runs on. -/
abbrev opPrec (ops : List StreamOp) (i j : ℕ) : Prop :=
  i < j ∧ j < ops.length ∧
    (opStream (ops.getD i (StreamOp.compute 0))
        = opStream (ops.getD j (StreamOp.compute 0)) ∨
      waitedStream (ops.getD j (StreamOp.compute 0))
        = some (opStream (ops.getD i (StreamOp.compute 0))))

/-- A hardware execution order for the issued operations: a permutation of
their indices that respects every start-order constraint. -/
abbrev validSchedule (ops : List StreamOp) (sched : List ℕ) : Prop :=
  sched.Perm (List.range ops.length) ∧
    ∀ i < ops.length, ∀ j < ops.length, opPrec ops i j →
      sched.indexOf i < sched.indexOf j

/-- C9: in every execution order the GPU may choose for the operations of
a render-loop iteration, the device-to-host copy (index 2) starts only
after the rendering compute (index 0): the `wait_stream` between them
orders the transfer stream behind all previously issued compute work. -/
theorem transfer_after_compute_c9 (sched : List ℕ)
    (h : validSchedule renderIterOps sched) :
    sched.indexOf 0 < sched.indexOf 2 := by
  have h01 : sched.indexOf 0 < sched.indexOf 1 :=
    h.2 0 (by decide) 1 (by decide) (by decide)
  have h12 : sched.indexOf 1 < sched.indexOf 2 :=
    h.2 1 (by decide) 2 (by decide) (by decide)
  exact lt_trans h01 h12

theorem transfer_after_compute_c9_witness :
    validSchedule renderIterOps [0, 1, 2] ∧
      List.indexOf 0 [0, 1, 2] < List.indexOf 2 [0, 1, 2] :=
  ⟨by decide, transfer_after_compute_c9 [0, 1, 2] (by decide)⟩
